import Mathlib

/-!
Shallow embedding of the `DistributedQueue` broker and `Worker` loop of the
distributed-task-queue repository.  The backing store (Redis) is modelled by
association lists for hashes and score-sorted lists for sorted sets; job ids,
payloads, results and error messages are opaque and modelled as `Nat`;
timestamps and scores are `Int` (milliseconds).  Each broker operation is a
pure function from the queue state (plus the current time, passed explicitly)
to the updated state and the operation's return value, translated line by
line from the source.
-/

namespace TaskQueue

/-! ### Backing-store primitives -/

section Store

variable {α : Type}

/-- Redis `HSET`: update the field if present, else append at the tail. -/
def hset : List (Nat × α) → Nat → α → List (Nat × α)
  | [], k, v => [(k, v)]
  | p :: t, k, v => if p.1 = k then (k, v) :: t else p :: hset t k v

/-- Redis `HGET`. -/
def hget : List (Nat × α) → Nat → Option α
  | [], _ => none
  | p :: t, k => if p.1 = k then some p.2 else hget t k

/-- Redis `HDEL`. -/
def hdel (h : List (Nat × α)) (k : Nat) : List (Nat × α) :=
  h.filter (fun p => p.1 != k)

end Store

/-- Ordering of sorted-set entries `(score, member)`: by score, ties by
member (standing in for Redis's lexicographic member order). -/
def entryLe (a b : Int × Nat) : Bool :=
  decide (a.1 < b.1) || (decide (a.1 = b.1) && decide (a.2 ≤ b.2))

/-- Insert an entry into a score-sorted list, keeping it sorted. -/
def zinsert (e : Int × Nat) : List (Int × Nat) → List (Int × Nat)
  | [] => [e]
  | x :: xs => if entryLe e x then e :: x :: xs else x :: zinsert e xs

/-- Redis `ZADD`: remove any old entry for the member, insert with the new
score. -/
def zadd (z : List (Int × Nat)) (score : Int) (m : Nat) : List (Int × Nat) :=
  zinsert (score, m) (z.filter (fun p => p.2 != m))

/-- Redis `ZREM`. -/
def zrem (z : List (Int × Nat)) (m : Nat) : List (Int × Nat) :=
  z.filter (fun p => p.2 != m)

/-- Redis `ZRANGEBYSCORE key lo hi`: the members whose score lies in
`[lo, hi]`, in list (= score) order. -/
def zrangebyscore (z : List (Int × Nat)) (lo hi : Int) : List Nat :=
  (z.filter (fun p => decide (lo ≤ p.1) && decide (p.1 ≤ hi))).map (·.2)

/-- The members of a sorted set, in score order. -/
def zmembers (z : List (Int × Nat)) : List Nat := z.map (·.2)

/-- Score-sortedness of a sorted-set representation (always true of a real
Redis sorted set). -/
def zsortedB : List (Int × Nat) → Bool
  | [] => true
  | [_] => true
  | a :: b :: t => entryLe a b && zsortedB (b :: t)

/-! ### Job records and queue state -/

/-- `status` field of a job record. -/
inductive Status where
  | pending
  | retrying
  | processing
  | completed
  | failed
deriving Repr, DecidableEq

/-- A job record, as serialized into the `jobs` hash. -/
structure Job where
  id : Nat
  data : Nat
  priority : Int
  attempts : Int
  maxRetries : Int
  createdAt : Int
  status : Status
  completedAt : Option Int := none
  failedAt : Option Int := none
  lastError : Option Nat := none
  result : Option Nat := none
deriving Repr, DecidableEq

/-- The stats hash (`total`, `pending`, `processing`, `completed`, `failed`
counters, each touched by `HINCRBY`). -/
structure Stats where
  total : Int
  pending : Int
  processing : Int
  completed : Int
  failed : Int
deriving Repr, DecidableEq

/-- The broker's collections under one queue namespace. -/
structure QueueState where
  jobs : List (Nat × Job)
  pending : List Nat
  priorityQ : List (Int × Nat)
  delayed : List (Int × Nat)
  processing : List (Nat × Int)
  completed : List Nat
  failed : List Nat
  stats : Stats
deriving Repr, DecidableEq

/-- The state of a freshly created queue (all collections empty). -/
def initialState : QueueState :=
  { jobs := [], pending := [], priorityQ := [], delayed := [],
    processing := [], completed := [], failed := [],
    stats := { total := 0, pending := 0, processing := 0,
               completed := 0, failed := 0 } }

/-- Broker configuration (`this.config`). -/
structure Config where
  maxRetries : Int := 3
  retryDelay : Int := 1000
  retryBackoff : Int := 2
  jobTimeout : Int := 30000
deriving Repr, DecidableEq

/-- JavaScript `x || d` on an optional number: `undefined` and `0` both fall
back to the default. -/
def orDefault (v : Option Int) (d : Int) : Int :=
  match v with
  | none => d
  | some x => if x = 0 then d else x

/-- The recognized fields of `addJob`'s `options` bag. -/
structure AddOptions where
  jobId : Option Nat := none
  priority : Option Int := none
  delay : Option Int := none
  maxRetries : Option Int := none
deriving Repr, DecidableEq

/-! ### Broker operations -/

/-- `addJob(data, options)`: persist the record, place the id in exactly one
of `delayed` / `priority` / `pending`, bump `stats.total` and
`stats.pending`, return the id.  `genId` stands for the id `_generateJobId`
would produce. -/
def addJob (cfg : Config) (s : QueueState) (now : Int) (genId : Nat)
    (data : Nat) (o : AddOptions) : Nat × QueueState :=
  let jobId := o.jobId.getD genId
  let priority := orDefault o.priority 0
  let delay := orDefault o.delay 0
  let job : Job :=
    { id := jobId, data := data, priority := priority, attempts := 0,
      maxRetries := orDefault o.maxRetries cfg.maxRetries,
      createdAt := now, status := .pending }
  let s1 := { s with jobs := hset s.jobs jobId job }
  let s2 :=
    if delay > 0 then
      { s1 with delayed := zadd s1.delayed (now + delay) jobId }
    else if priority > 0 then
      { s1 with priorityQ := zadd s1.priorityQ (-priority) jobId }
    else
      { s1 with pending := s1.pending ++ [jobId] }
  (jobId,
   { s2 with stats := { s2.stats with total := s2.stats.total + 1,
                                      pending := s2.stats.pending + 1 } })

/-- The id-moving core of `getNextJob`: the two atomic Lua scripts (pop from
`priority`, else pop from `pending`, inserting the popped id into
`processing`) together with the stats updates of the pending branch.
`getNextJob` is this followed by `_getJobData` on the popped id. -/
def dequeueId (s : QueueState) (now : Int) : Option Nat × QueueState :=
  match s.priorityQ with
  | e :: rest =>
      (some e.2, { s with priorityQ := rest,
                          processing := hset s.processing e.2 now })
  | [] =>
      match s.pending with
      | [] => (none, s)
      | q :: qs =>
          (some q,
           { s with pending := qs,
                    processing := hset s.processing q now,
                    stats := { s.stats with
                                 pending := s.stats.pending - 1,
                                 processing := s.stats.processing + 1 } })

/-- `getNextJob()`: pop an id (priority first, then pending) and load its
record; `null` when both sources are empty or the record is missing. -/
def getNextJob (s : QueueState) (now : Int) : Option Job × QueueState :=
  let r := dequeueId s now
  (r.1.bind (fun i => hget r.2.jobs i), r.2)

/-- `completeJob(jobId, result)`. -/
def completeJob (s : QueueState) (now : Int) (jobId : Nat) (result : Nat) :
    Bool × QueueState :=
  match hget s.jobs jobId with
  | none => (false, s)
  | some job =>
      let job' := { job with status := .completed, completedAt := some now,
                             result := some result }
      (true,
       { s with jobs := hset s.jobs jobId job',
                processing := hdel s.processing jobId,
                completed := s.completed ++ [jobId],
                stats := { s.stats with
                             processing := s.stats.processing - 1,
                             completed := s.stats.completed + 1 } })

/-- `_retryJob(job)`: schedule a retry with exponential backoff.  The `job`
argument already carries the incremented `attempts`. -/
def retryJob (cfg : Config) (s : QueueState) (now : Int) (job : Job) :
    Bool × QueueState :=
  let delay := cfg.retryDelay * cfg.retryBackoff ^ job.attempts.toNat
  let job' := { job with status := .retrying }
  (true,
   { s with jobs := hset s.jobs job.id job',
            processing := hdel s.processing job.id,
            delayed := zadd s.delayed (now + delay) job.id,
            stats := { s.stats with processing := s.stats.processing - 1 } })

/-- `failJob(jobId, error)`: bump `attempts`; retry while
`attempts < maxRetries`, otherwise record a permanent failure. -/
def failJob (cfg : Config) (s : QueueState) (now : Int) (jobId : Nat)
    (err : Nat) : Bool × QueueState :=
  match hget s.jobs jobId with
  | none => (false, s)
  | some job0 =>
      let job := { job0 with attempts := job0.attempts + 1,
                             lastError := some err, failedAt := some now }
      if job.attempts < job.maxRetries then
        retryJob cfg s now job
      else
        let job' := { job with status := .failed }
        (false,
         { s with jobs := hset s.jobs jobId job',
                  processing := hdel s.processing jobId,
                  failed := s.failed ++ [jobId],
                  stats := { s.stats with
                               processing := s.stats.processing - 1,
                               failed := s.stats.failed + 1 } })

/-- One iteration of the loop body of `processDelayedJobs`: skip when the
record is gone, else move the id from `delayed` to `priority` or `pending`
and bump `stats.pending`. -/
def promoteOne (s : QueueState) (jobId : Nat) : QueueState :=
  match hget s.jobs jobId with
  | none => s
  | some job =>
      let s1 := { s with delayed := zrem s.delayed jobId }
      let s2 :=
        if job.priority > 0 then
          { s1 with priorityQ := zadd s1.priorityQ (-job.priority) jobId }
        else
          { s1 with pending := s1.pending ++ [jobId] }
      { s2 with stats := { s2.stats with pending := s2.stats.pending + 1 } }

/-- `processDelayedJobs()`: scan the due range once, promote each id in
score order, and return the length of the scanned range. -/
def processDelayedJobs (s : QueueState) (now : Int) : Nat × QueueState :=
  let due := zrangebyscore s.delayed 0 now
  (due.length, due.foldl promoteOne s)

/-- One entry of the loop body of `checkStalledJobs` over the `processing`
snapshot. -/
def stalledStep (cfg : Config) (now : Int) (acc : Nat × QueueState)
    (e : Nat × Int) : Nat × QueueState :=
  if cfg.jobTimeout < now - e.2 then
    match hget acc.2.jobs e.1 with
    | none => acc
    | some _ => (acc.1 + 1, (failJob cfg acc.2 now e.1 0).2)
  else acc

/-- `checkStalledJobs()`: fail every leased job past its deadline (the error
message is opaque, modelled as `0`); return the recovered count. -/
def checkStalledJobs (cfg : Config) (s : QueueState) (now : Int) :
    Nat × QueueState :=
  s.processing.foldl (stalledStep cfg now) (0, s)

/-- One iteration of `Worker._processLoop` that polled the queue: dispatch
the processor's outcome to `completeJob` or `failJob`.  Returns `none` when
the poll came back empty, else `some (completed?, jobId)`. -/
def workerStep (cfg : Config) (proc : Nat → Except Nat Nat)
    (s : QueueState) (now : Int) : Option (Bool × Nat) × QueueState :=
  match getNextJob s now with
  | (none, s1) => (none, s1)
  | (some job, s1) =>
      match proc job.data with
      | .ok r => (some (true, job.id), (completeJob s1 now job.id r).2)
      | .error e => (some (false, job.id), (failJob cfg s1 now job.id e).2)

/-! ### Lemmas about the store primitives -/

theorem hget_hset_self {α : Type} (h : List (Nat × α)) (k : Nat) (v : α) :
    hget (hset h k v) k = some v := by
  induction h with
  | nil => simp [hset, hget]
  | cons p t ih =>
      by_cases hp : p.1 = k
      · simp [hset, hget, hp]
      · simp [hset, hget, hp, ih]

theorem hget_hset_ne {α : Type} (h : List (Nat × α)) (k k' : Nat) (v : α)
    (hne : k' ≠ k) : hget (hset h k v) k' = hget h k' := by
  induction h with
  | nil => simp [hset, hget, Ne.symm hne]
  | cons p t ih =>
      by_cases hp : p.1 = k
      · subst hp
        simp [hset, hget, Ne.symm hne, hne]
      · by_cases hq : p.1 = k'
        · simp [hset, hget, hp, hq, Ne.symm hne, hne]
        · simp [hset, hget, hp, hq, ih]

theorem keys_hset_subset {α : Type} (h : List (Nat × α)) (k : Nat) (v : α) :
    ∀ a, a ∈ (hset h k v).map Prod.fst → a ∈ h.map Prod.fst ∨ a = k := by
  induction h with
  | nil => simp [hset]
  | cons p t ih =>
      intro a ha
      by_cases hp : p.1 = k
      · simp [hset, hp] at ha
        rcases ha with ha | ha
        · right; exact ha
        · left; simp [ha]
      · simp [hset, hp] at ha
        rcases ha with ha | ha
        · left; simp [ha]
        · rcases ih a (by simpa using ha) with h1 | h1
          · left; simp [h1]
          · right; exact h1

theorem keys_hset_nodup {α : Type} (h : List (Nat × α)) (k : Nat) (v : α)
    (hn : (h.map Prod.fst).Nodup) : ((hset h k v).map Prod.fst).Nodup := by
  induction h with
  | nil => simp [hset]
  | cons p t ih =>
      simp only [List.map_cons, List.nodup_cons] at hn
      by_cases hp : p.1 = k
      · subst hp
        simpa [hset] using hn
      · simp only [hset, hp, if_false, List.map_cons, List.nodup_cons]
        refine ⟨?_, ih hn.2⟩
        intro hmem
        rcases keys_hset_subset t k v p.1 hmem with h1 | h1
        · exact hn.1 h1
        · exact hp h1

theorem keys_hdel_nodup {α : Type} (h : List (Nat × α)) (k : Nat)
    (hn : (h.map Prod.fst).Nodup) : ((hdel h k).map Prod.fst).Nodup := by
  have hs : (hdel h k).Sublist h := List.filter_sublist h
  exact hn.sublist (hs.map Prod.fst)

theorem mem_zmembers_zinsert (e : Int × Nat) (l : List (Int × Nat)) (m : Nat)
    (hm : m ∈ zmembers l) : m ∈ zmembers (zinsert e l) := by
  induction l with
  | nil => simp [zmembers] at hm
  | cons x xs ih =>
      by_cases he : entryLe e x
      · simp only [zinsert, if_pos he]
        simp only [zmembers, List.map_cons, List.mem_cons] at hm ⊢
        tauto
      · simp only [zinsert, if_neg he]
        simp only [zmembers, List.map_cons, List.mem_cons] at hm ⊢
        rcases hm with hm | hm
        · left; exact hm
        · right; exact ih hm

theorem self_mem_zmembers_zinsert (e : Int × Nat) (l : List (Int × Nat)) :
    e.2 ∈ zmembers (zinsert e l) := by
  induction l with
  | nil => simp [zinsert, zmembers]
  | cons x xs ih =>
      by_cases he : entryLe e x
      · simp [zinsert, if_pos he, zmembers]
      · simp only [zinsert, if_neg he]
        simp only [zmembers, List.map_cons, List.mem_cons]
        right; exact ih

theorem mem_zmembers_zadd (z : List (Int × Nat)) (sc : Int) (id m : Nat)
    (hm : m ∈ zmembers z) : m ∈ zmembers (zadd z sc id) := by
  by_cases hid : m = id
  · subst hid
    exact self_mem_zmembers_zinsert (sc, m) _
  · apply mem_zmembers_zinsert
    simp only [zmembers, List.mem_map] at hm ⊢
    rcases hm with ⟨p, hp, hpm⟩
    refine ⟨p, ?_, hpm⟩
    apply List.mem_filter_of_mem hp
    simp [hpm, hid]

/-- `entryLe` compares scores first. -/
theorem score_le_of_entryLe {a b : Int × Nat} (h : entryLe a b = true) :
    a.1 ≤ b.1 := by
  simp only [entryLe, Bool.or_eq_true, Bool.and_eq_true, decide_eq_true_eq] at h
  rcases h with h | ⟨h, _⟩
  · exact le_of_lt h
  · exact le_of_eq h

theorem score_le_of_not_entryLe {a b : Int × Nat} (h : entryLe a b = false) :
    b.1 ≤ a.1 := by
  simp only [entryLe, Bool.or_eq_false_iff, Bool.and_eq_false_iff,
    decide_eq_false_iff_not] at h
  omega

/-- In a score-sorted list, the head's score is minimal. -/
theorem zsortedB_head_min (a : Int × Nat) (l : List (Int × Nat))
    (hs : zsortedB (a :: l) = true) : ∀ x ∈ l, a.1 ≤ x.1 := by
  induction l generalizing a with
  | nil => intro x hx; simp at hx
  | cons b t ih =>
      intro x hx
      have hab : entryLe a b = true := by
        simp only [zsortedB, Bool.and_eq_true] at hs
        exact hs.1
      have hbt : zsortedB (b :: t) = true := by
        simp only [zsortedB, Bool.and_eq_true] at hs
        exact hs.2
      rcases List.mem_cons.mp hx with hx | hx
      · subst hx; exact score_le_of_entryLe hab
      · exact le_trans (score_le_of_entryLe hab) (ih b hbt x hx)

theorem mem_zinsert_self (e : Int × Nat) (l : List (Int × Nat)) :
    e ∈ zinsert e l := by
  induction l with
  | nil => simp [zinsert]
  | cons x xs ih =>
      by_cases he : entryLe e x
      · simp [zinsert, if_pos he]
      · simp only [zinsert, if_neg he]
        exact List.mem_cons_of_mem _ ih

theorem mem_zadd_self (z : List (Int × Nat)) (sc : Int) (m : Nat) :
    (sc, m) ∈ zadd z sc m :=
  mem_zinsert_self (sc, m) _

theorem mem_zmembers_zrem (z : List (Int × Nat)) (j id : Nat) (hne : id ≠ j)
    (h : id ∈ zmembers z) : id ∈ zmembers (zrem z j) := by
  simp only [zmembers, List.mem_map] at h ⊢
  rcases h with ⟨p, hp, hpm⟩
  refine ⟨p, ?_, hpm⟩
  apply List.mem_filter_of_mem hp
  simp [hpm, hne]

/-! ### Shared fixtures for concrete evaluations -/

/-- The default broker configuration. -/
def cfg0 : Config := {}

/-- The effect of `addJob` on the jobs table and `processing`: the new
record is written under its id; `processing` is untouched, whichever queue
receives the id. -/
theorem addJob_effect (cfg : Config) (s : QueueState) (now : Int)
    (genId data : Nat) (o : AddOptions) :
    (addJob cfg s now genId data o).2.jobs =
      hset s.jobs (o.jobId.getD genId)
        { id := o.jobId.getD genId, data := data,
          priority := orDefault o.priority 0, attempts := 0,
          maxRetries := orDefault o.maxRetries cfg.maxRetries,
          createdAt := now, status := .pending }
    ∧ (addJob cfg s now genId data o).2.processing = s.processing := by
  unfold addJob
  by_cases hd : orDefault o.delay 0 > 0
  · simp [hd]
  · by_cases hp : orDefault o.priority 0 > 0 <;> simp [hd, hp]

/-! ### C4: addJob writes the record and places the id in exactly one queue -/

/-- The placement action of `addJob`: by the value of the (defaulted) `delay`
and `priority` arguments, exactly one of `delayed` / `priority` / `pending`
receives the id, and the other two collections are untouched. -/
def placedInExactlyOne (s s' : QueueState) (id : Nat)
    (now delay priority : Int) : Prop :=
  if delay > 0 then
    (now + delay, id) ∈ s'.delayed ∧ s'.priorityQ = s.priorityQ ∧
      s'.pending = s.pending
  else if priority > 0 then
    (-priority, id) ∈ s'.priorityQ ∧ s'.delayed = s.delayed ∧
      s'.pending = s.pending
  else
    s'.pending = s.pending ++ [id] ∧ s'.delayed = s.delayed ∧
      s'.priorityQ = s.priorityQ

/-- C4: `addJob` writes a record with `attempts = 0` and `status = pending`
to the jobs table, places the id in exactly one of `delayed` (score
`now + delay`, when `delay > 0`), `priority` (score `-priority`, else when
`priority > 0`) or the tail of `pending`, and returns the job id. -/
theorem addJob_placement (cfg : Config) (s : QueueState) (now : Int)
    (genId data : Nat) (o : AddOptions) :
    (addJob cfg s now genId data o).1 = o.jobId.getD genId
    ∧ hget (addJob cfg s now genId data o).2.jobs (o.jobId.getD genId) =
        some { id := o.jobId.getD genId, data := data,
               priority := orDefault o.priority 0, attempts := 0,
               maxRetries := orDefault o.maxRetries cfg.maxRetries,
               createdAt := now, status := .pending }
    ∧ placedInExactlyOne s (addJob cfg s now genId data o).2
        (o.jobId.getD genId) now (orDefault o.delay 0)
        (orDefault o.priority 0) := by
  unfold addJob placedInExactlyOne
  by_cases hd : orDefault o.delay 0 > 0
  · simp [hd, hget_hset_self, zadd, mem_zinsert_self]
  · by_cases hp : orDefault o.priority 0 > 0
    · simp [hd, hp, hget_hset_self, zadd, mem_zinsert_self]
    · simp [hd, hp, hget_hset_self]

/-! ### C7: addJob performs no argument validation -/

/-- C7 counterexample: the claim says a negative `delay` is rejected with an
`InvalidArgument` error and no job is enqueued; on the code, `addJob` with
`delay = -5` succeeds, returns the id, appends the job to `pending` and
bumps `stats.total`. -/
theorem addJob_no_validation_cex :
    orDefault (AddOptions.delay { delay := some (-5) }) 0 < 0
    ∧ (addJob cfg0 initialState 0 7 42 { delay := some (-5) }).1 = 7
    ∧ (addJob cfg0 initialState 0 7 42 { delay := some (-5) }).2.pending = [7]
    ∧ (addJob cfg0 initialState 0 7 42 { delay := some (-5) }).2.stats.total
        = 1 := by decide

/-- C7 amended: `addJob` validates nothing.  A non-positive (defaulted)
`delay` together with a non-positive (defaulted) `priority` lands the job at
the tail of `pending`; `maxRetries = 0` is falsy in JavaScript and silently
falls back to the configured default; the id is always returned. -/
theorem addJob_no_validation (cfg : Config) (s : QueueState) (now : Int)
    (genId data : Nat) (o : AddOptions) :
    (orDefault o.delay 0 ≤ 0 → orDefault o.priority 0 ≤ 0 →
        (addJob cfg s now genId data o).2.pending =
          s.pending ++ [o.jobId.getD genId])
    ∧ (o.maxRetries = some 0 →
        hget (addJob cfg s now genId data o).2.jobs (o.jobId.getD genId) =
          some { id := o.jobId.getD genId, data := data,
                 priority := orDefault o.priority 0, attempts := 0,
                 maxRetries := cfg.maxRetries, createdAt := now,
                 status := .pending })
    ∧ (addJob cfg s now genId data o).1 = o.jobId.getD genId := by
  refine ⟨?_, ?_, by unfold addJob; simp⟩
  · intro hd hp
    unfold addJob
    simp [not_lt.mpr hd, not_lt.mpr hp]
  · intro hm
    rw [(addJob_effect cfg s now genId data o).1, hget_hset_self]
    simp [orDefault, hm]

/-- C7 witness for `addJob_no_validation` at concrete arguments. -/
theorem addJob_no_validation_w :
    (addJob cfg0 initialState 0 7 42 { delay := some (-5), maxRetries := some 0 }).2.pending
        = initialState.pending ++ [7]
    ∧ hget (addJob cfg0 initialState 0 7 42
          { delay := some (-5), maxRetries := some 0 }).2.jobs 7 =
        some { id := 7, data := 42, priority := 0, attempts := 0,
               maxRetries := cfg0.maxRetries, createdAt := 0,
               status := .pending } :=
  ⟨(addJob_no_validation cfg0 initialState 0 7 42
      { delay := some (-5), maxRetries := some 0 }).1 (by decide) (by decide),
   (addJob_no_validation cfg0 initialState 0 7 42
      { delay := some (-5), maxRetries := some 0 }).2.1 (by decide)⟩

/-! ### C10: completeJob and failJob never remove ids from the waiting
collections -/

/-- C10: neither `completeJob` nor `failJob` ever removes an id from
`pending`, `priority` or `delayed`: `completeJob` leaves all three exactly
as they were; `failJob` leaves `pending` and `priority` untouched and only
ever adds to `delayed` (via the retry path's `zadd`), so any member of
`delayed` is still a member afterwards. -/
theorem terminal_ops_frame (cfg : Config) (s : QueueState) (now : Int)
    (jobId res err m : Nat) :
    ((completeJob s now jobId res).2.pending = s.pending
      ∧ (completeJob s now jobId res).2.priorityQ = s.priorityQ
      ∧ (completeJob s now jobId res).2.delayed = s.delayed)
    ∧ ((failJob cfg s now jobId err).2.pending = s.pending
      ∧ (failJob cfg s now jobId err).2.priorityQ = s.priorityQ
      ∧ (m ∈ zmembers s.delayed →
          m ∈ zmembers (failJob cfg s now jobId err).2.delayed)) := by
  constructor
  · unfold completeJob
    cases hget s.jobs jobId <;> simp
  · unfold failJob
    cases hget s.jobs jobId with
    | none => simp
    | some job0 =>
        by_cases hr : job0.attempts + 1 < job0.maxRetries
        · simp only [hr, if_true, retryJob]
          refine ⟨?_, ?_, fun hm => mem_zmembers_zadd _ _ _ _ hm⟩ <;> trivial
        · simp only [hr, if_false]
          refine ⟨?_, ?_, fun hm => hm⟩ <;> trivial

/-- C10 witness: a job sitting in `delayed` (as after stalled-job recovery)
is still there after a further `failJob`, and `completeJob` leaves a
non-empty `pending` list intact. -/
theorem terminal_ops_frame_w :
    (completeJob { initialState with pending := [3] } 1 9 0).2.pending = [3]
    ∧ (9 ∈ zmembers [((5 : Int), 9)] →
        9 ∈ zmembers (failJob cfg0 { initialState with delayed := [(5, 9)] }
          1 9 0).2.delayed) :=
  ⟨(terminal_ops_frame cfg0 { initialState with pending := [3] } 1 9 0 0 9).1.1,
   (terminal_ops_frame cfg0 { initialState with delayed := [(5, 9)] } 1 9 0 0 9).2.2.2⟩

/-! ### C8: failJob with remaining attempts schedules a retry -/

/-- C8: on an existing record whose incremented `attempts` is still below
`maxRetries`, `failJob` returns true, writes the record back with
`status = retrying` and the incremented `attempts`, removes the id from
`processing`, inserts it into `delayed` with score
`now + retryDelay * retryBackoff ^ attempts` (exponent = post-increment
`attempts`), and decrements `stats.processing`. -/
theorem failJob_retry_schedule (cfg : Config) (s : QueueState) (now : Int)
    (jobId err : Nat) (job : Job)
    (hj : hget s.jobs jobId = some job) (hid : job.id = jobId)
    (hlt : job.attempts + 1 < job.maxRetries) :
    (failJob cfg s now jobId err).1 = true
    ∧ hget (failJob cfg s now jobId err).2.jobs jobId =
        some { job with attempts := job.attempts + 1, lastError := some err,
                        failedAt := some now, status := .retrying }
    ∧ (failJob cfg s now jobId err).2.processing = hdel s.processing jobId
    ∧ (now + cfg.retryDelay * cfg.retryBackoff ^ (job.attempts + 1).toNat,
        jobId) ∈ (failJob cfg s now jobId err).2.delayed
    ∧ (failJob cfg s now jobId err).2.stats.processing =
        s.stats.processing - 1 := by
  unfold failJob retryJob
  rw [hj]
  simp only [hid, hlt, if_true]
  refine ⟨?_, ?_, ?_, ?_, ?_⟩
  · trivial
  · rw [hget_hset_self]
  · trivial
  · exact mem_zadd_self _ _ _
  · trivial

/-- C8 witness: a concrete retry.  One pending job with `maxRetries = 3`
(default) is dequeued and failed once at `now = 2`; the retry lands in
`delayed` with score `2 + 1000 * 2^1`. -/
theorem failJob_retry_schedule_w :
    (failJob cfg0 (getNextJob (addJob cfg0 initialState 0 7 42 {}).2 1).2
        2 7 5).1 = true
    ∧ ((2 : Int) + cfg0.retryDelay * cfg0.retryBackoff ^ (0 + 1 : Int).toNat, 7)
        ∈ (failJob cfg0 (getNextJob (addJob cfg0 initialState 0 7 42 {}).2 1).2
            2 7 5).2.delayed := by
  have h := failJob_retry_schedule cfg0
    (getNextJob (addJob cfg0 initialState 0 7 42 {}).2 1).2 2 7 5
    { id := 7, data := 42, priority := 0, attempts := 0, maxRetries := 3,
      createdAt := 0, status := .pending }
    (by decide) (by decide) (by decide)
  exact ⟨h.1, h.2.2.2.1⟩

/-! ### C1: no idempotency guard on terminal records -/

/-- A job record that has already completed, together with the queue state
right after its successful `completeJob` (as produced by
`addJob; getNextJob; completeJob` at times 0, 1, 2). -/
def jobDone : Job :=
  { id := 7, data := 42, priority := 0, attempts := 0, maxRetries := 3,
    createdAt := 0, status := .completed, completedAt := some 2,
    result := some 99 }

/-- Queue state holding the completed record `jobDone`, its id already on
the `completed` list. -/
def sDone : QueueState :=
  { initialState with
      jobs := [(7, jobDone)], completed := [7],
      stats := { total := 1, pending := 0, processing := 0, completed := 1,
                 failed := 0 } }

/-- C1 counterexample: the claim says a second `completeJob` on a terminal
record returns false and is a no-op; on the code the second call returns
true, appends the id to `completed` a second time and changes the stats
counters. -/
theorem completeJob_second_call_cex :
    jobDone.status = Status.completed
    ∧ (completeJob sDone 3 7 99).1 = true
    ∧ (completeJob sDone 3 7 99).2.completed = [7, 7]
    ∧ (completeJob sDone 3 7 99).2.stats.processing = -1 := by decide

/-- C1 amended: neither `completeJob` nor `failJob` checks for a terminal
status.  On any existing record, `completeJob` returns true and appends the
id to `completed` again; on a record whose `attempts` already reached
`maxRetries` (as after a permanent failure), `failJob` does return false,
but it is not a no-op: it increments `attempts`, rewrites the record with
`status = failed` and appends the id to `failed` again.  Only a missing
record makes either call a no-op returning false. -/
theorem terminal_reapply_not_noop (cfg : Config) (s : QueueState) (now : Int)
    (jobId res err : Nat) (job : Job)
    (hj : hget s.jobs jobId = some job)
    (hmax : job.maxRetries ≤ job.attempts) :
    ((completeJob s now jobId res).1 = true
      ∧ (completeJob s now jobId res).2.completed = s.completed ++ [jobId])
    ∧ ((failJob cfg s now jobId err).1 = false
      ∧ (failJob cfg s now jobId err).2.failed = s.failed ++ [jobId]
      ∧ hget (failJob cfg s now jobId err).2.jobs jobId =
          some { job with attempts := job.attempts + 1,
                          lastError := some err, failedAt := some now,
                          status := .failed }) := by
  have hnlt : ¬ (job.attempts + 1 < job.maxRetries) := by omega
  unfold completeJob failJob
  rw [hj]
  simp only [hnlt, if_false]
  refine ⟨⟨?_, ?_⟩, ?_, ?_, ?_⟩
  · trivial
  · trivial
  · trivial
  · trivial
  · rw [hget_hset_self]

/-- A permanently failed record: `maxRetries = 1`, one failure recorded. -/
def jobDead : Job :=
  { id := 7, data := 42, priority := 0, attempts := 1, maxRetries := 1,
    createdAt := 0, status := .failed, failedAt := some 2,
    lastError := some 5 }

/-- Queue state holding the permanently failed record `jobDead`, its id
already on the `failed` list. -/
def sDead : QueueState :=
  { initialState with
      jobs := [(7, jobDead)], failed := [7],
      stats := { total := 1, pending := 0, processing := 0, completed := 0,
                 failed := 1 } }

/-- C1 witness: `terminal_reapply_not_noop` applied to the concrete
permanently-failed state `sDead`. -/
theorem terminal_reapply_not_noop_w :
    ((completeJob sDead 3 7 99).1 = true
      ∧ (completeJob sDead 3 7 99).2.completed = sDead.completed ++ [7])
    ∧ ((failJob cfg0 sDead 3 7 5).1 = false
      ∧ (failJob cfg0 sDead 3 7 5).2.failed = sDead.failed ++ [7]
      ∧ hget (failJob cfg0 sDead 3 7 5).2.jobs 7 =
          some { jobDead with attempts := jobDead.attempts + 1,
                              lastError := some 5, failedAt := some 3,
                              status := .failed }) :=
  terminal_reapply_not_noop cfg0 sDead 3 7 99 5 jobDead (by decide) (by decide)

/-! ### C2: priority dominance of getNextJob -/

/-- The ids popped by `n` successive `getNextJob` calls with no interleaved
enqueues (stopping early if the queue runs dry). -/
def dispatchIds (now : Int) : Nat → QueueState → List Nat
  | 0, _ => []
  | n + 1, s =>
      match dequeueId s now with
      | (none, _) => []
      | (some i, s') => i :: dispatchIds now n s'

theorem dequeueId_jobs (s : QueueState) (now : Int) :
    (dequeueId s now).2.jobs = s.jobs := by
  unfold dequeueId
  cases s.priorityQ with
  | cons e rest => rfl
  | nil => cases s.pending <;> rfl

theorem dispatchIds_pending (now : Int) :
    ∀ (k : Nat) (s : QueueState), s.priorityQ = [] → k ≤ s.pending.length →
      dispatchIds now k s = s.pending.take k := by
  intro k
  induction k with
  | zero => intro s _ _; simp [dispatchIds]
  | succ n ih =>
      intro s h hk
      cases hp : s.pending with
      | nil => rw [hp] at hk; simp at hk
      | cons q qs =>
          have hd : dequeueId s now =
              (some q,
               { s with pending := qs, processing := hset s.processing q now,
                        stats := { s.stats with
                                     pending := s.stats.pending - 1,
                                     processing := s.stats.processing + 1 } }) := by
            unfold dequeueId
            rw [h, hp]
          rw [dispatchIds, hd]
          dsimp only
          rw [List.take_succ_cons]
          congr 1
          apply ih
          · exact h
          · rw [hp] at hk
            simpa using Nat.le_of_succ_le_succ hk

theorem dispatchIds_drain (now : Int) :
    ∀ (l : List (Int × Nat)) (s : QueueState), s.priorityQ = l →
      ∀ k, k ≤ s.pending.length →
        dispatchIds now (l.length + k) s = zmembers l ++ s.pending.take k := by
  intro l
  induction l with
  | nil =>
      intro s h k hk
      simpa [zmembers] using dispatchIds_pending now k s h hk
  | cons e rest ih =>
      intro s h k hk
      have hd : dequeueId s now =
          (some e.2,
           { s with priorityQ := rest,
                    processing := hset s.processing e.2 now }) := by
        unfold dequeueId
        rw [h]
      have harith : (e :: rest).length + k = (rest.length + k) + 1 := by
        simp [List.length_cons]
        omega
      rw [harith, dispatchIds, hd]
      dsimp only
      have hrec := ih { s with priorityQ := rest,
                               processing := hset s.processing e.2 now }
        rfl k hk
      rw [hrec]
      simp [zmembers]

/-- The full dispatch order contract of `getNextJob`, stated over the
id-moving core `dequeueId`: a non-empty priority set is popped at its
minimal score with `pending` untouched; the pending head is popped only
when the priority set is empty; `n = |priority| + k` successive calls
return all priority members (in score order) followed by the first `k`
pending ids; and `getNextJob` itself is `dequeueId` followed by a record
lookup. -/
def dispatchSpec (s : QueueState) (now : Int) : Prop :=
  (∀ e rest, s.priorityQ = e :: rest →
      (dequeueId s now).1 = some e.2
      ∧ (∀ x ∈ s.priorityQ, e.1 ≤ x.1)
      ∧ (dequeueId s now).2.pending = s.pending
      ∧ (dequeueId s now).2.priorityQ = rest)
  ∧ (s.priorityQ = [] → (dequeueId s now).1 = s.pending.head?)
  ∧ (∀ k, k ≤ s.pending.length →
      dispatchIds now (s.priorityQ.length + k) s =
        zmembers s.priorityQ ++ s.pending.take k)
  ∧ getNextJob s now =
      ((dequeueId s now).1.bind (fun i => hget s.jobs i), (dequeueId s now).2)

/-- C2: whenever the priority set is non-empty, `getNextJob` pops its
lowest-score (= highest-priority) member and does not examine `pending`;
only an empty priority set makes it pop the pending head (FIFO); hence
successive calls drain the whole priority set, in priority order, before
any pending job. -/
theorem getNextJob_priority_dominance (s : QueueState) (now : Int)
    (hs : zsortedB s.priorityQ = true) : dispatchSpec s now := by
  refine ⟨?_, ?_, ?_, ?_⟩
  · intro e rest hp
    have hd : dequeueId s now =
        (some e.2,
         { s with priorityQ := rest,
                  processing := hset s.processing e.2 now }) := by
      unfold dequeueId
      rw [hp]
    refine ⟨by rw [hd], ?_, by rw [hd], by rw [hd]⟩
    intro x hx
    rw [hp] at hx hs
    rcases List.mem_cons.mp hx with hx | hx
    · rw [hx]
    · exact zsortedB_head_min e rest hs x hx
  · intro hp
    unfold dequeueId
    rw [hp]
    cases hq : s.pending <;> rfl
  · intro k hk
    exact dispatchIds_drain now s.priorityQ s rfl k hk
  · simp [getNextJob, dequeueId_jobs]

/-- C2 witness: a sorted two-element priority set (ids 2 then 1) over a
two-element pending list; three calls dispatch `[2, 1, 4]`. -/
def sPrioPend : QueueState :=
  { initialState with
      priorityQ := [(-9, 2), (-1, 1)], pending := [4, 5] }

theorem getNextJob_priority_dominance_w :
    zsortedB sPrioPend.priorityQ = true ∧ dispatchSpec sPrioPend 3 :=
  ⟨by decide, getNextJob_priority_dominance sPrioPend 3 (by decide)⟩

/-! ### C3: the stats updates of getNextJob are skipped on the priority
path -/

/-- C3 counterexample: a job dequeued from the priority set is returned,
yet `stats.pending` and `stats.processing` keep their old values (the
claim requires a decrement/increment on every successful call). -/
def sPrio : QueueState :=
  { initialState with
      jobs := [(1, { id := 1, data := 0, priority := 4, attempts := 0,
                     maxRetries := 3, createdAt := 0, status := .pending })],
      priorityQ := [(-4, 1)],
      stats := { total := 1, pending := 1, processing := 0, completed := 0,
                 failed := 0 } }

theorem getNextJob_priority_stats_cex :
    ((getNextJob sPrio 5).1).isSome = true
    ∧ (getNextJob sPrio 5).2.stats = sPrio.stats
    ∧ sPrio.stats.pending = 1
    ∧ sPrio.stats.processing = 0 := by decide

/-- C3 amended: only the pending-list path of `getNextJob` decrements
`stats.pending` and increments `stats.processing`; a pop from the priority
set leaves the stats counters exactly as they were, and an empty queue
leaves the whole state unchanged. -/
theorem getNextJob_stats_amended (s : QueueState) (now : Int) :
    (s.priorityQ ≠ [] → (getNextJob s now).2.stats = s.stats)
    ∧ (∀ q qs, s.priorityQ = [] → s.pending = q :: qs →
        (getNextJob s now).2.stats =
          { s.stats with pending := s.stats.pending - 1,
                         processing := s.stats.processing + 1 })
    ∧ (s.priorityQ = [] → s.pending = [] → (getNextJob s now).2 = s) := by
  refine ⟨?_, ?_, ?_⟩
  · intro h
    cases hp : s.priorityQ with
    | nil => exact absurd hp h
    | cons e rest => simp [getNextJob, dequeueId, hp]
  · intro q qs h hq
    simp [getNextJob, dequeueId, h, hq]
  · intro h hq
    simp [getNextJob, dequeueId, h, hq]

/-- C3 witness: `getNextJob_stats_amended` at the concrete priority-path
state `sPrio` and at a concrete pending-path state. -/
theorem getNextJob_stats_amended_w :
    (getNextJob sPrio 5).2.stats = sPrio.stats
    ∧ (getNextJob { initialState with pending := [4] } 5).2.stats =
        { initialState.stats with
            pending := initialState.stats.pending - 1,
            processing := initialState.stats.processing + 1 } :=
  ⟨(getNextJob_stats_amended sPrio 5).1 (by decide),
   (getNextJob_stats_amended { initialState with pending := [4] } 5).2.1
     4 [] rfl rfl⟩

/-! ### C6: the return value of processDelayedJobs counts skipped ids -/

theorem promoteOne_jobs (s : QueueState) (id : Nat) :
    (promoteOne s id).jobs = s.jobs := by
  unfold promoteOne
  cases hget s.jobs id with
  | none => rfl
  | some job =>
      by_cases hp : job.priority > 0 <;> simp [hp]

theorem promoteOne_processing (s : QueueState) (id : Nat) :
    (promoteOne s id).processing = s.processing := by
  unfold promoteOne
  cases hget s.jobs id with
  | none => rfl
  | some job =>
      by_cases hp : job.priority > 0 <;> simp [hp]

theorem foldl_promoteOne_jobs (l : List Nat) (s : QueueState) :
    (l.foldl promoteOne s).jobs = s.jobs := by
  induction l generalizing s with
  | nil => rfl
  | cons a t ih => rw [List.foldl_cons, ih, promoteOne_jobs]

theorem foldl_promoteOne_processing (l : List Nat) (s : QueueState) :
    (l.foldl promoteOne s).processing = s.processing := by
  induction l generalizing s with
  | nil => rfl
  | cons a t ih => rw [List.foldl_cons, ih, promoteOne_processing]

theorem promoteOne_keeps_recordless (s : QueueState) (a id : Nat)
    (hid : hget s.jobs id = none) (h : id ∈ zmembers s.delayed) :
    id ∈ zmembers (promoteOne s a).delayed := by
  unfold promoteOne
  cases ha : hget s.jobs a with
  | none => exact h
  | some job =>
      have hne : id ≠ a := by
        intro he
        rw [he, ha] at hid
        cases hid
      by_cases hp : job.priority > 0 <;>
        simpa [hp] using mem_zmembers_zrem s.delayed a id hne h

theorem foldl_promoteOne_keeps_recordless (l : List Nat) (s : QueueState)
    (id : Nat) (hid : hget s.jobs id = none)
    (h : id ∈ zmembers s.delayed) :
    id ∈ zmembers (l.foldl promoteOne s).delayed := by
  induction l generalizing s with
  | nil => exact h
  | cons a t ih =>
      rw [List.foldl_cons]
      apply ih
      · rw [promoteOne_jobs]
        exact hid
      · exact promoteOne_keeps_recordless s a id hid h

/-- C6 counterexample: one due id (score 3 ≤ now = 5) whose job record is
missing.  The claim says it is skipped and not counted, so the call should
return 0; the code returns the scanned-range length 1, and indeed promotes
nothing (the state is unchanged, the id still sits in `delayed`). -/
def sGhost : QueueState := { initialState with delayed := [(3, 9)] }

theorem processDelayed_count_cex :
    (processDelayedJobs sGhost 5).1 = 1
    ∧ (processDelayedJobs sGhost 5).2 = sGhost := by decide

/-- C6 amended: `processDelayedJobs` returns the length of the due range it
scanned (every id with score in `[0, now]`), counting ids with missing job
records even though those are skipped: they are neither promoted nor
removed from `delayed`, and the jobs table is never modified. -/
theorem processDelayed_returns_scan_length (s : QueueState) (now : Int) :
    (processDelayedJobs s now).1 = (zrangebyscore s.delayed 0 now).length
    ∧ (processDelayedJobs s now).2.jobs = s.jobs
    ∧ (∀ id, hget s.jobs id = none → id ∈ zmembers s.delayed →
        id ∈ zmembers (processDelayedJobs s now).2.delayed) :=
  ⟨rfl, foldl_promoteOne_jobs _ _,
   fun id h1 h2 => foldl_promoteOne_keeps_recordless _ s id h1 h2⟩

/-- C6 witness: `processDelayed_returns_scan_length` at the concrete state
`sGhost`; the skipped id 9 is still delayed. -/
theorem processDelayed_returns_scan_length_w :
    (processDelayedJobs sGhost 5).1 = (zrangebyscore sGhost.delayed 0 5).length
    ∧ 9 ∈ zmembers (processDelayedJobs sGhost 5).2.delayed :=
  ⟨(processDelayed_returns_scan_length sGhost 5).1,
   (processDelayed_returns_scan_length sGhost 5).2.2 9 (by decide) (by decide)⟩

/-! ### C9: the worker reports processor outcomes to the broker -/

/-- C9: in every worker-loop iteration that obtained a job, a processor
that returns normally makes the worker call `completeJob` with the returned
result, and a processor that throws (or resolves to an error) makes it call
`failJob` with that error — the post-state of the iteration is exactly the
corresponding broker call's post-state on the post-dequeue state. -/
theorem worker_dispatch (cfg : Config) (proc : Nat → Except Nat Nat)
    (s : QueueState) (now : Int) (job : Job)
    (h : (getNextJob s now).1 = some job) :
    (∀ r, proc job.data = .ok r →
        workerStep cfg proc s now =
          (some (true, job.id),
           (completeJob (getNextJob s now).2 now job.id r).2))
    ∧ (∀ e, proc job.data = .error e →
        workerStep cfg proc s now =
          (some (false, job.id),
           (failJob cfg (getNextJob s now).2 now job.id e).2)) := by
  have hpair : getNextJob s now = (some job, (getNextJob s now).2) := by
    rw [← h]
  constructor
  · intro r hr
    rw [workerStep, hpair]
    dsimp only
    rw [hr]
  · intro e he
    rw [workerStep, hpair]
    dsimp only
    rw [he]

/-- C9 witness: one pending job; a processor returning `.ok 77` routes the
iteration through `completeJob`. -/
def sWork : QueueState := (addJob cfg0 initialState 0 7 42 {}).2

theorem worker_dispatch_w :
    workerStep cfg0 (fun _ => Except.ok 77) sWork 1 =
      (some (true, 7),
       (completeJob (getNextJob sWork 1).2 1 7 77).2) :=
  (worker_dispatch cfg0 (fun _ => Except.ok 77) sWork 1
      { id := 7, data := 42, priority := 0, attempts := 0, maxRetries := 3,
        createdAt := 0, status := .pending } (by decide)).1 77 rfl

/-! ### C5: the attempts-bound invariant -/

/-- A record that is not yet terminal. -/
def nonTerminal (j : Job) : Prop :=
  j.status ≠ Status.completed ∧ j.status ≠ Status.failed

/-- Boolean test that an optional record is absent or not yet terminal. -/
def nonTerminalB (o : Option Job) : Bool :=
  match o with
  | none => true
  | some j =>
      decide (j.status ≠ Status.completed) &&
        decide (j.status ≠ Status.failed)

/-- The per-record invariant: `attempts` never exceeds `maxRetries`, and a
record that is not yet terminal still has an attempt in hand. -/
def RecOK (j : Job) : Prop :=
  j.attempts ≤ j.maxRetries ∧ (nonTerminal j → j.attempts < j.maxRetries)

/-- The queue-wide invariant: every stored record satisfies `RecOK`, and the
`processing` hash has no duplicate keys. -/
def Inv (s : QueueState) : Prop :=
  (∀ id j, hget s.jobs id = some j → RecOK j) ∧
    (s.processing.map Prod.fst).Nodup

theorem recOK_hset (h : List (Nat × Job)) (k : Nat) (v : Job)
    (hall : ∀ id j, hget h id = some j → RecOK j) (hv : RecOK v) :
    ∀ id j, hget (hset h k v) id = some j → RecOK j := by
  intro id j hj
  by_cases hik : id = k
  · subst hik
    rw [hget_hset_self] at hj
    cases hj
    exact hv
  · rw [hget_hset_ne h k id v hik] at hj
    exact hall id j hj

theorem inv_addJob (cfg : Config) (s : QueueState) (now : Int)
    (genId data : Nat) (o : AddOptions) (h : Inv s)
    (hmr : 0 < orDefault o.maxRetries cfg.maxRetries) :
    Inv (addJob cfg s now genId data o).2 := by
  obtain ⟨hjobs, hnd⟩ := h
  obtain ⟨hjs, hpr⟩ := addJob_effect cfg s now genId data o
  refine ⟨?_, ?_⟩
  · rw [hjs]
    apply recOK_hset _ _ _ hjobs
    exact ⟨le_of_lt hmr, fun _ => hmr⟩
  · rw [hpr]
    exact hnd

theorem dequeueId_processing (s : QueueState) (now : Int) :
    (dequeueId s now).2.processing = s.processing ∨
      ∃ i, (dequeueId s now).2.processing = hset s.processing i now := by
  unfold dequeueId
  cases s.priorityQ with
  | cons e rest => exact Or.inr ⟨e.2, rfl⟩
  | nil =>
      cases s.pending with
      | nil => exact Or.inl rfl
      | cons q qs => exact Or.inr ⟨q, rfl⟩

theorem inv_getNextJob (s : QueueState) (now : Int) (h : Inv s) :
    Inv (getNextJob s now).2 := by
  obtain ⟨hjobs, hnd⟩ := h
  refine ⟨?_, ?_⟩
  · have hj : (getNextJob s now).2.jobs = s.jobs := dequeueId_jobs s now
    rw [hj]
    exact hjobs
  · have : (getNextJob s now).2.processing = (dequeueId s now).2.processing :=
      rfl
    rw [this]
    rcases dequeueId_processing s now with hp | ⟨i, hp⟩
    · rw [hp]; exact hnd
    · rw [hp]; exact keys_hset_nodup _ _ _ hnd

theorem inv_completeJob (s : QueueState) (now : Int) (jobId res : Nat)
    (h : Inv s) : Inv (completeJob s now jobId res).2 := by
  obtain ⟨hjobs, hnd⟩ := h
  unfold completeJob
  cases hj : hget s.jobs jobId with
  | none => exact ⟨hjobs, hnd⟩
  | some job =>
      dsimp only
      refine ⟨?_, keys_hdel_nodup _ _ hnd⟩
      apply recOK_hset _ _ _ hjobs
      have hr := hjobs jobId job hj
      exact ⟨hr.1, fun hnt => absurd rfl hnt.1⟩

theorem inv_failJob (cfg : Config) (s : QueueState) (now : Int)
    (jobId err : Nat) (h : Inv s)
    (hnt : nonTerminalB (hget s.jobs jobId) = true) :
    Inv (failJob cfg s now jobId err).2 := by
  obtain ⟨hjobs, hnd⟩ := h
  unfold failJob
  cases hj : hget s.jobs jobId with
  | none => exact ⟨hjobs, hnd⟩
  | some job0 =>
      have hntj : nonTerminal job0 := by
        rw [hj] at hnt
        unfold nonTerminalB at hnt
        simp only [Bool.and_eq_true, decide_eq_true_eq] at hnt
        exact hnt
      have hlt : job0.attempts < job0.maxRetries :=
        (hjobs jobId job0 hj).2 hntj
      dsimp only
      by_cases hr : job0.attempts + 1 < job0.maxRetries
      · simp only [hr, if_true]
        unfold retryJob
        refine ⟨?_, keys_hdel_nodup _ _ hnd⟩
        apply recOK_hset _ _ _ hjobs
        refine ⟨le_of_lt hr, fun _ => hr⟩
      · simp only [hr, if_false]
        refine ⟨?_, keys_hdel_nodup _ _ hnd⟩
        apply recOK_hset _ _ _ hjobs
        refine ⟨?_, fun hnt2 => absurd rfl hnt2.2⟩
        show job0.attempts + 1 ≤ job0.maxRetries
        omega

theorem failJob_nonTerminal_other (cfg : Config) (s : QueueState)
    (now : Int) (jobId err id : Nat) (hne : id ≠ jobId)
    (h : nonTerminalB (hget s.jobs id) = true) :
    nonTerminalB (hget (failJob cfg s now jobId err).2.jobs id) = true := by
  unfold failJob
  cases hj : hget s.jobs jobId with
  | none => exact h
  | some job0 =>
      dsimp only
      by_cases hr : job0.attempts + 1 < job0.maxRetries
      · simp only [hr, if_true]
        unfold retryJob
        by_cases hid : id = job0.id
        · subst hid
          rw [hget_hset_self]
          simp [nonTerminalB]
        · rw [hget_hset_ne _ _ _ _ hid]
          exact h
      · simp only [hr, if_false]
        rw [hget_hset_ne _ _ _ _ hne]
        exact h

theorem inv_processDelayed (s : QueueState) (now : Int) (h : Inv s) :
    Inv (processDelayedJobs s now).2 := by
  obtain ⟨hjobs, hnd⟩ := h
  refine ⟨?_, ?_⟩
  · have hj : (processDelayedJobs s now).2.jobs = s.jobs :=
      foldl_promoteOne_jobs _ _
    rw [hj]
    exact hjobs
  · have hp : (processDelayedJobs s now).2.processing = s.processing :=
      foldl_promoteOne_processing _ _
    rw [hp]
    exact hnd

theorem stalledStep_inv (cfg : Config) (now : Int) (acc : Nat × QueueState)
    (p : Nat × Int) (h : Inv acc.2)
    (hnt : cfg.jobTimeout < now - p.2 →
        nonTerminalB (hget acc.2.jobs p.1) = true) :
    Inv (stalledStep cfg now acc p).2 := by
  unfold stalledStep
  by_cases hto : cfg.jobTimeout < now - p.2
  · simp only [hto, if_true]
    cases hj : hget acc.2.jobs p.1 with
    | none => exact h
    | some job => exact inv_failJob cfg acc.2 now p.1 0 h (hnt hto)
  · simp only [hto, if_false]
    exact h

theorem stalledStep_nonTerminal_other (cfg : Config) (now : Int)
    (acc : Nat × QueueState) (p : Nat × Int) (id : Nat) (hne : id ≠ p.1)
    (h : nonTerminalB (hget acc.2.jobs id) = true) :
    nonTerminalB (hget (stalledStep cfg now acc p).2.jobs id) = true := by
  unfold stalledStep
  by_cases hto : cfg.jobTimeout < now - p.2
  · simp only [hto, if_true]
    cases hj : hget acc.2.jobs p.1 with
    | none => exact h
    | some job =>
        exact failJob_nonTerminal_other cfg acc.2 now p.1 0 id hne h
  · simp only [hto, if_false]
    exact h

theorem stalledFold_inv (cfg : Config) (now : Int) :
    ∀ (l : List (Nat × Int)) (acc : Nat × QueueState),
      Inv acc.2 → (l.map Prod.fst).Nodup →
      (∀ p ∈ l, cfg.jobTimeout < now - p.2 →
          nonTerminalB (hget acc.2.jobs p.1) = true) →
      Inv (l.foldl (stalledStep cfg now) acc).2 := by
  intro l
  induction l with
  | nil =>
      intro acc h _ _
      exact h
  | cons p t ih =>
      intro acc hInv hnd hNT
      rw [List.foldl_cons]
      have hnd2 : (p.1 ∉ t.map Prod.fst) ∧ (t.map Prod.fst).Nodup := by
        simpa using hnd
      apply ih
      · exact stalledStep_inv cfg now acc p hInv
          (fun hto => hNT p (List.mem_cons_self p t) hto)
      · exact hnd2.2
      · intro q hq hto
        have hqne : q.1 ≠ p.1 := by
          intro he
          apply hnd2.1
          rw [← he]
          exact List.mem_map_of_mem Prod.fst hq
        exact stalledStep_nonTerminal_other cfg now acc p q.1 hqne
          (hNT q (List.mem_cons_of_mem p hq) hto)

theorem inv_checkStalled (cfg : Config) (s : QueueState) (now : Int)
    (h : Inv s)
    (hg : ∀ p ∈ s.processing, cfg.jobTimeout < now - p.2 →
        nonTerminalB (hget s.jobs p.1) = true) :
    Inv (checkStalledJobs cfg s now).2 :=
  stalledFold_inv cfg now s.processing (0, s) h h.2 hg

/-- The states reachable from a fresh queue by broker operations, under the
side conditions without which the attempts bound is false on the code:
every `addJob` resolves to a positive `maxRetries`, and `failJob` — also
when invoked from inside `checkStalledJobs` — is never applied to a record
that is already terminal. -/
inductive Reachable (cfg : Config) : QueueState → Prop where
  | init : Reachable cfg initialState
  | add (s : QueueState) (now : Int) (genId data : Nat) (o : AddOptions) :
      Reachable cfg s →
      0 < orDefault o.maxRetries cfg.maxRetries →
      Reachable cfg (addJob cfg s now genId data o).2
  | next (s : QueueState) (now : Int) :
      Reachable cfg s → Reachable cfg (getNextJob s now).2
  | complete (s : QueueState) (now : Int) (jobId res : Nat) :
      Reachable cfg s → Reachable cfg (completeJob s now jobId res).2
  | fail (s : QueueState) (now : Int) (jobId err : Nat) :
      Reachable cfg s →
      nonTerminalB (hget s.jobs jobId) = true →
      Reachable cfg (failJob cfg s now jobId err).2
  | promote (s : QueueState) (now : Int) :
      Reachable cfg s → Reachable cfg (processDelayedJobs s now).2
  | sweep (s : QueueState) (now : Int) :
      Reachable cfg s →
      (∀ p ∈ s.processing, cfg.jobTimeout < now - p.2 →
          nonTerminalB (hget s.jobs p.1) = true) →
      Reachable cfg (checkStalledJobs cfg s now).2

theorem inv_reachable (cfg : Config) (s : QueueState)
    (h : Reachable cfg s) : Inv s := by
  induction h with
  | init =>
      refine ⟨?_, ?_⟩
      · intro id j hj
        simp [initialState, hget] at hj
      · simp [initialState]
  | add s now genId data o _ hmr ih =>
      exact inv_addJob cfg s now genId data o ih hmr
  | next s now _ ih => exact inv_getNextJob s now ih
  | complete s now jobId res _ ih => exact inv_completeJob s now jobId res ih
  | fail s now jobId err _ hnt ih => exact inv_failJob cfg s now jobId err ih hnt
  | promote s now _ ih => exact inv_processDelayed s now ih
  | sweep s now _ hg ih => exact inv_checkStalled cfg s now ih hg

/-- The state after `addJob(maxRetries=1); getNextJob; failJob; failJob`
on the same id: the second `failJob` pushes `attempts` past `maxRetries`. -/
def sOver : QueueState :=
  (failJob cfg0
    (failJob cfg0
      (getNextJob (addJob cfg0 initialState 0 7 42
        { maxRetries := some 1 }).2 1).2
      2 7 5).2
    3 7 5).2

/-- C5 counterexample: after the operation sequence
`addJob(maxRetries=1); getNextJob; failJob; failJob` (all legal broker
calls), the stored record has `attempts = 2 > maxRetries = 1`, violating
the claimed invariant. -/
theorem attempts_bound_cex :
    hget sOver.jobs 7 =
      some { id := 7, data := 42, priority := 0, attempts := 2,
             maxRetries := 1, createdAt := 0, status := .failed,
             failedAt := some 3, lastError := some 5 }
    ∧ ¬ ((2 : Int) ≤ 1) := by decide

/-- C5 amended: for every state reachable by broker operations in which
each `addJob` resolves to a positive `maxRetries` and `failJob` (directly
or via `checkStalledJobs`) is never applied to an already-terminal record,
every stored job record satisfies `attempts ≤ maxRetries`. -/
theorem attempts_le_maxRetries_of_reachable (cfg : Config) (s : QueueState)
    (h : Reachable cfg s) :
    ∀ id j, hget s.jobs id = some j → j.attempts ≤ j.maxRetries :=
  fun id j hj => ((inv_reachable cfg s h).1 id j hj).1

/-- The record stored for id 7 after one `addJob ; getNextJob ; failJob`
round with the default configuration. -/
def jobRetrying : Job :=
  { id := 7, data := 42, priority := 0, attempts := 1, maxRetries := 3,
    createdAt := 0, status := .retrying, failedAt := some 2,
    lastError := some 5 }

/-- C5 witness: `attempts_le_maxRetries_of_reachable` applied to the
concrete reachable state after `addJob; getNextJob; failJob`. -/
theorem attempts_le_maxRetries_of_reachable_w :
    jobRetrying.attempts ≤ jobRetrying.maxRetries :=
  attempts_le_maxRetries_of_reachable cfg0
    (failJob cfg0 (getNextJob (addJob cfg0 initialState 0 7 42 {}).2 1).2
      2 7 5).2
    (Reachable.fail _ 2 7 5
      (Reachable.next _ 1 (Reachable.add initialState 0 7 42 {}
        Reachable.init (by decide)))
      (by decide))
    7 jobRetrying (by decide)

end TaskQueue
